import Mathlib

/-
Formal model of the loki-cli core logic (fetch-output classification,
branch pruning coordination, author canonicalization, author filtering,
commit aggregation, graph rendering, and time-range resolution),
shallowly embedded from src/pruning.rs, src/git.rs and src/main.rs.
Rust strings are modelled as lists of characters (`Str`), hash maps as
association lists, and the fallible resolver as `Except`.
-/

abbrev Str := List Char

/-- Model of Rust `str::find(pattern)`: the index (in characters) of the
first occurrence of `needle` in the scanned string, if any.  Rust returns
byte indices; on the lines involved here indices count characters, and
slicing after a match lands on the same boundary in both models. -/
def findSubstrIdx (needle : Str) : Str → Option Nat
  | [] => if needle.isEmpty then some 0 else none
  | c :: rest =>
    if needle.isPrefixOf (c :: rest) then some 0
    else (findSubstrIdx needle rest).map (fun i => i + 1)

/-- Model of Rust `str::contains(needle)`. -/
def containsSubstr (hay needle : Str) : Bool :=
  (findSubstrIdx needle hay).isSome

/-- Worker for `replaceAll`, structurally recursive on a fuel that starts
at the string's length; every step consumes at least one character, so
the fuel never runs out on the initial call. -/
def replaceAllGo (pat repl : Str) : Nat → Str → Str
  | _, [] => []
  | 0, s => s
  | fuel + 1, c :: rest =>
    if pat ≠ [] ∧ pat.isPrefixOf (c :: rest) then
      repl ++ replaceAllGo pat repl fuel (rest.drop (pat.length - 1))
    else
      c :: replaceAllGo pat repl fuel rest

/-- Model of Rust `str::replace(pat, repl)`: replace every non-overlapping
occurrence of `pat`, scanning left to right.  All call sites in the
program pass a non-empty `pat`. -/
def replaceAll (pat repl s : Str) : Str := replaceAllGo pat repl s.length s

/-- Model of Rust `str::trim()` (the program only ever feeds it ordinary
ASCII whitespace). -/
def trimStr (s : Str) : Str :=
  ((s.dropWhile Char.isWhitespace).reverse.dropWhile Char.isWhitespace).reverse

/-- Model of Rust `str::to_lowercase()` on the ASCII data this program
compares (per-character lowering). -/
def toLowerStr (s : Str) : Str := s.map Char.toLower

/-- `str::lines` strips one trailing carriage return from each line. -/
def stripCR (s : Str) : Str :=
  if s.getLast? = some '\r' then s.dropLast else s

/-- Model of Rust `str::lines()`: split on newline, no trailing empty line
for a final newline, trailing `\r` stripped per line. -/
def rustLines (s : Str) : List Str :=
  if s = [] then []
  else
    let parts := s.splitOn '\n'
    let parts := if s.getLast? = some '\n' then parts.dropLast else parts
    parts.map stripCR

/-! ### src/pruning.rs -/

def ORIGIN : Str := "origin/".toList

def DELETED : Str := " - [deleted]".toList

def RED : Str := "\x1b[31m".toList

def RESET : Str := "\x1b[0m".toList

/-- `is_pruned_branch` from src/pruning.rs:
`s.starts_with(DELETED).then(|| s.find(ORIGIN)).flatten().map(|ix| String::from(&s[ix + ORIGIN.len()..]))`. -/
def is_pruned_branch (s : Str) : Option Str :=
  if DELETED.isPrefixOf s then
    (findSubstrIdx ORIGIN s).map (fun ix => s.drop (ix + ORIGIN.length))
  else none

/-- `highlight_branch_name` from src/pruning.rs. -/
def highlight_branch_name (branch : Str) : Str := RED ++ branch ++ RESET

/-- `highlight_pruned_branch_line` from src/pruning.rs. -/
def highlight_pruned_branch_line (line branch : Str) : Str :=
  let remote_branch := ORIGIN ++ branch
  let highlighted_remote_branch := RED ++ remote_branch ++ RESET
  if containsSubstr line remote_branch then
    replaceAll remote_branch highlighted_remote_branch line
  else
    replaceAll branch (RED ++ branch ++ RESET) line

/-! ### `prune` from src/main.rs

The observable behaviour of `prune` is modelled as a trace of events:
one display event per input line (in input order), then — only after the
whole stream is consumed — either the "No pruned branches found" report
or one delete attempt per collected branch.  The classification loop and
the guard `branches.contains(&b) && b != current_branch` are taken
verbatim from the source. -/

inductive PruneEvent where
  | display (s : Str)
  | deleteBranch (b : Str)
  | noPruned
deriving DecidableEq

/-- The `for line in ...` loop of `prune`: produces (display events in line
order, collected `pruned_branches` in line order). -/
def prune_scan (branches : List Str) (current : Str) : List Str → List PruneEvent × List Str
  | [] => ([], [])
  | line :: rest =>
    let r := prune_scan branches current rest
    match is_pruned_branch line with
    | some b =>
      (PruneEvent.display (highlight_pruned_branch_line line b) :: r.1,
       if b ∈ branches ∧ b ≠ current then b :: r.2 else r.2)
    | none => (PruneEvent.display line :: r.1, r.2)

/-- The local branch deletes that `prune` issues. -/
def prune_deletes (branches : List Str) (current : Str) (input : List Str) : List Str :=
  (prune_scan branches current input).2

/-- Full event trace of `prune`: the loop's displays, then either the
"No pruned branches found" report (when nothing was collected) or the
batched delete attempts. -/
def prune_trace (branches : List Str) (current : Str) (input : List Str) : List PruneEvent :=
  let r := prune_scan branches current input
  if r.2 = [] then r.1 ++ [PruneEvent.noPruned]
  else r.1 ++ r.2.map PruneEvent.deleteBranch

/-- How `prune` displays a single line (highlighted when classified as
pruned, verbatim otherwise). -/
def render_line (l : Str) : Str :=
  match is_pruned_branch l with
  | some b => highlight_pruned_branch_line l b
  | none => l

/-! ### src/git.rs: the two line-collection modes

The external process's observable outcome is modelled as its exit code
plus its full stdout and stderr texts (the case where the process could
not even be spawned is the separate `map_err` path and is not modelled;
both claims concern a process that ran to completion). -/

structure ProcOutput where
  exitCode : Int
  stdoutText : Str
  stderrText : Str
deriving DecidableEq

/-- `git_command_iter` from src/git.rs (buffered mode): waits for the
process, then returns the stderr lines followed by the stdout lines.
The exit code in `output.status` is never inspected. -/
def git_command_iter (out : ProcOutput) : Except Str (List Str) :=
  Except.ok (rustLines out.stderrText ++ rustLines out.stdoutText)

/-- `zs` is an order-preserving merge of `xs` and `ys`. -/
inductive Interleaving : List Str → List Str → List Str → Prop where
  | nil : Interleaving [] [] []
  | left {x xs ys zs} : Interleaving xs ys zs → Interleaving (x :: xs) ys (x :: zs)
  | right {y xs ys zs} : Interleaving xs ys zs → Interleaving xs (y :: ys) (y :: zs)

/-- `git_command_stream` from src/git.rs (streaming mode): two reader
threads push each stream's lines (in stream order) into one channel; the
iterator ends when the channel closes.  `delivered` ranges over the
possible merged line sequences.  The stderr thread ends with
`let _ = child.wait();`, discarding the exit status, so the delivered
sequences do not depend on `out.exitCode`. -/
def git_command_stream (out : ProcOutput) (delivered : List Str) : Prop :=
  Interleaving (rustLines out.stdoutText) (rustLines out.stderrText) delivered

/-! ### Calendar model for `resolve_time_range` (chrono `NaiveDate`,
`DateTime<Utc>` as a unix timestamp in seconds) -/

structure NDate where
  y : Int
  m : Nat
  d : Nat
deriving DecidableEq

def isLeapYear (y : Int) : Bool :=
  (Int.fmod y 4 = 0 && Int.fmod y 100 ≠ 0) || Int.fmod y 400 = 0

def daysInMonth (y : Int) (m : Nat) : Nat :=
  if m = 2 then (if isLeapYear y then 29 else 28)
  else if m = 4 ∨ m = 6 ∨ m = 9 ∨ m = 11 then 30
  else 31

/-- Days since 1970-01-01 of a civil date (Gregorian, proleptic). -/
def daysFromCivil (dt : NDate) : Int :=
  let y := if dt.m ≤ 2 then dt.y - 1 else dt.y
  let era := Int.fdiv y 400
  let yoe := y - era * 400
  let mp : Int := Int.fmod ((dt.m : Int) + 9) 12
  let doy := Int.fdiv (153 * mp + 2) 5 + (dt.d : Int) - 1
  let doe := yoe * 365 + Int.fdiv yoe 4 - Int.fdiv yoe 100 + doy
  era * 146097 + doe - 719468

/-- Civil date of a day count since 1970-01-01 (inverse of
`daysFromCivil`). -/
def civilFromDays (z0 : Int) : NDate :=
  let z := z0 + 719468
  let era := Int.fdiv z 146097
  let doe := z - era * 146097
  let yoe := Int.fdiv (doe - Int.fdiv doe 1460 + Int.fdiv doe 36524 - Int.fdiv doe 146096) 365
  let y := yoe + era * 400
  let doy := doe - (365 * yoe + Int.fdiv yoe 4 - Int.fdiv yoe 100)
  let mp := Int.fdiv (5 * doy + 2) 153
  let d := doy - Int.fdiv (153 * mp + 2) 5 + 1
  let m := if mp < 10 then mp + 3 else mp - 9
  { y := if m ≤ 2 then y + 1 else y, m := m.toNat, d := d.toNat }

/-- `DateTime::date_naive()` on a UTC timestamp. -/
def civilFromTs (ts : Int) : NDate := civilFromDays (Int.fdiv ts 86400)

/-- Timestamp of `date.and_hms_opt(0, 0, 0)` (midnight). -/
def dateStartTs (d : NDate) : Int := daysFromCivil d * 86400

/-- Timestamp of `date.and_hms_opt(23, 59, 59)`. -/
def dateEndTs (d : NDate) : Int := daysFromCivil d * 86400 + 86399

/-- chrono `NaiveDate::checked_sub_months(Months::new(n))`: calendar-aware
month subtraction, clamping the day to the target month's length.  The
`None` overflow case (dates beyond chrono's ±262143 year range) cannot be
reached from this program's inputs and is modelled as total. -/
def subMonths (dt : NDate) (n : Nat) : NDate :=
  let total : Int := dt.y * 12 + (dt.m : Int) - 1 - (n : Int)
  let y := Int.fdiv total 12
  let m := (Int.fmod total 12).toNat + 1
  { y := y, m := m, d := min dt.d (daysInMonth y m) }

def natStr (n : Nat) : Str := (toString n).toList

/-- Zero-pad a numeral to the given width. -/
def padNum (width : Nat) (n : Nat) : Str :=
  let s := natStr n
  List.replicate (width - s.length) '0' ++ s

/-- chrono's `%Y-%m-%d` / `NaiveDate` `Display` formatting. -/
def fmtDate (dt : NDate) : Str :=
  (if dt.y < 0 then ['-'] ++ padNum 4 (-dt.y).toNat else padNum 4 dt.y.toNat)
    ++ "-".toList ++ padNum 2 dt.m ++ "-".toList ++ padNum 2 dt.d

/-! ### Repo-stats options and the time-range resolver (src/main.rs) -/

structure RepoStatsOptions where
  days : Option Nat
  weeks : Option Nat
  months : Option Nat
  fromDate : Option NDate
  toDate : Option NDate
  top : Option Nat
  names : List Str
  emails : List Str
deriving DecidableEq

structure TimeRange where
  start_ts : Option Int
  end_ts : Int
  start_label : Str
  end_label : Str
  end_is_latest : Bool
deriving DecidableEq

def i64MAX : Int := 9223372036854775807

def daysErrMsg : Str := "--days must be greater than zero.".toList

def weeksErrMsg : Str := "--weeks must be greater than zero.".toList

def monthsErrMsg : Str := "--months must be greater than zero.".toList

def startAfterEndMsg : Str :=
  "The computed start date occurs after the end date. Check your filters.".toList

/-- `resolve_time_range` from src/main.rs, with `Utc::now()` passed in as
the timestamp `now`.  The end is either 23:59:59 of `--to` or
(`now`, label "latest commit", `end_ts = i64::MAX`); the start follows the
`from` / `days` / `weeks` / `months` if-else chain of the source, each
count rejecting zero; finally a start strictly after the reference end is
rejected. -/
def resolve_time_range (now : Int) (o : RepoStatsOptions) : Except Str TimeRange :=
  let refEnd : Int × Str × Bool × Int :=
    match o.toDate with
    | some td => (dateEndTs td, fmtDate td, false, dateEndTs td)
    | none => (now, "latest commit".toList, true, i64MAX)
  let reference_end_dt := refEnd.1
  let end_label := refEnd.2.1
  let end_is_latest := refEnd.2.2.1
  let end_ts := refEnd.2.2.2
  let startRes : Except Str (Option Int × Str) :=
    match o.fromDate with
    | some fd => Except.ok (some (dateStartTs fd), fmtDate fd)
    | none =>
      match o.days with
      | some days =>
        if days = 0 then Except.error daysErrMsg
        else
          let dt := reference_end_dt - 86400 * (days : Int)
          Except.ok (some dt,
            fmtDate (civilFromTs dt) ++ " (last ".toList ++ natStr days ++ " day".toList
              ++ (if days = 1 then [] else "s".toList) ++ ")".toList)
      | none =>
        match o.weeks with
        | some weeks =>
          if weeks = 0 then Except.error weeksErrMsg
          else
            let dt := reference_end_dt - 604800 * (weeks : Int)
            Except.ok (some dt,
              fmtDate (civilFromTs dt) ++ " (last ".toList ++ natStr weeks ++ " week".toList
                ++ (if weeks = 1 then [] else "s".toList) ++ ")".toList)
        | none =>
          match o.months with
          | some months_count =>
            if months_count = 0 then Except.error monthsErrMsg
            else
              let end_date := civilFromTs reference_end_dt
              let start_date := subMonths end_date months_count
              Except.ok (some (dateStartTs start_date),
                fmtDate start_date ++ " (last ".toList ++ natStr months_count
                  ++ " month".toList ++ (if months_count = 1 then [] else "s".toList)
                  ++ ")".toList)
          | none => Except.ok (none, "initial commit".toList)
  match startRes with
  | Except.error e => Except.error e
  | Except.ok (start_dt, start_label) =>
    match start_dt with
    | some s =>
      if s > reference_end_dt then Except.error startAfterEndMsg
      else Except.ok ⟨some s, end_ts, start_label, end_label, end_is_latest⟩
    | none => Except.ok ⟨none, end_ts, start_label, end_label, end_is_latest⟩

/-! ### Author canonicalization and filtering (src/main.rs)

The two `HashMap<String, String>` arguments are modelled as association
lists; every insertion the source performs is for a key it has just
looked up and found absent, so consing onto the list is an exact model of
`HashMap::insert` / `Entry::or_insert_with` under `alookup`. -/

def alookup {β : Type} (k : Str) : List (Str × β) → Option β
  | [] => none
  | p :: rest => if p.1 = k then some p.2 else alookup k rest

/-- `HashMap::entry(k).or_insert_with(|| v)`: insert only when absent. -/
def insertIfAbsent {β : Type} (k : Str) (v : β) (l : List (Str × β)) : List (Str × β) :=
  match alookup k l with
  | some _ => l
  | none => (k, v) :: l

/-- `canonicalize_author` from src/main.rs.  The state pair is
(`email_aliases`, `name_to_email`); the result is the canonical key and
the updated pair. -/
def canonicalize_author (email name : Str) (st : List (Str × Str) × List (Str × Str)) :
    Str × List (Str × Str) × List (Str × Str) :=
  match alookup email st.1 with
  | some existing_email => (existing_email, st.1, st.2)
  | none =>
    if name ≠ [] then
      match alookup name st.2 with
      | some existing_email =>
        (existing_email, (email, existing_email) :: st.1, st.2)
      | none =>
        (email, insertIfAbsent email email st.1, (name, email) :: st.2)
    else
      (email, insertIfAbsent email email st.1, st.2)

/-- Process a sequence of (email, name) identities through
`canonicalize_author` with one shared pair of mappings. -/
def runCanon (ids : List (Str × Str)) (st : List (Str × Str) × List (Str × Str)) :
    List (Str × Str) × List (Str × Str) :=
  ids.foldl (fun st p => (canonicalize_author p.1 p.2 st).2) st

/-- `matches_author_filters_lowered` from src/main.rs.  The source's
early-return chain is written as the equivalent conjunction of guards:
a non-empty filter set demands a non-empty field whose lowercased text
contains at least one of the (pre-lowercased) filters. -/
def matches_author_filters_lowered (name email : Str)
    (name_filters_lower email_filters_lower : List Str) : Bool :=
  (name_filters_lower.isEmpty
    || (!name.isEmpty
        && name_filters_lower.any (fun filter => containsSubstr (toLowerStr name) filter)))
  && (email_filters_lower.isEmpty
    || (!email.isEmpty
        && email_filters_lower.any (fun filter => containsSubstr (toLowerStr email) filter)))

/-- `matches_author_filters` from src/main.rs: the variant that lowers the
filters from the raw options at every use. -/
def matches_author_filters (name email : Str) (o : RepoStatsOptions) : Bool :=
  (o.names.isEmpty
    || (!name.isEmpty
        && o.names.any (fun filter => containsSubstr (toLowerStr name) (toLowerStr filter))))
  && (o.emails.isEmpty
    || (!email.isEmpty
        && o.emails.any (fun filter => containsSubstr (toLowerStr email) (toLowerStr filter))))

/-! ### The `repo_stats` aggregation loop body (src/main.rs) -/

structure AggState where
  totals : List (Str × Nat)
  email_to_name : List (Str × Str)
  email_aliases : List (Str × Str)
  name_to_email : List (Str × Str)
deriving DecidableEq

/-- `*totals.entry(k).or_insert(0) += 1`. -/
def bump (k : Str) : List (Str × Nat) → List (Str × Nat)
  | [] => [(k, 1)]
  | p :: rest => if p.1 = k then (p.1, p.2 + 1) :: rest else p :: bump k rest

def unknownEmail : Str := "Unknown".toList

/-- The empty-email substitution applied to a record's email field:
`let email = email_part.trim(); if email.is_empty() { "Unknown" }`. -/
def emailNorm (email_part : Str) : Str :=
  let email := trimStr email_part
  if email = [] then unknownEmail else email

/-- The canonicalization a record undergoes in the loop, as a function of
the pre-state: `canonicalize_author(email, name, &mut email_aliases,
&mut name_to_email)` on the trimmed name and normalised email. -/
def canonStep (st : AggState) (name_part email_part : Str) :
    Str × List (Str × Str) × List (Str × Str) :=
  canonicalize_author (emailNorm email_part) (trimStr name_part)
    (st.email_aliases, st.name_to_email)

/-- The body of the `repo_stats` line loop for one already-parsed record
`(name_part, email_part)`: canonicalize (always mutating the maps), then
filter on the raw name and the canonical email, and only then record the
display name and tally.  The timestamp/date bookkeeping of the loop does
not interact with filtering or tallying and is not modelled. -/
def process_record (nf ef : List Str) (st : AggState) (name_part email_part : Str) :
    AggState :=
  let name := trimStr name_part
  let r := canonStep st name_part email_part
  let canonical_email := r.1
  let st1 : AggState :=
    { st with email_aliases := r.2.1, name_to_email := r.2.2 }
  if matches_author_filters_lowered name canonical_email nf ef then
    let st2 : AggState :=
      if name ≠ [] then
        { st1 with email_to_name := insertIfAbsent canonical_email name st1.email_to_name }
      else st1
    { st2 with totals := bump canonical_email st2.totals }
  else st1

/-- The whole aggregation pass over a list of records. -/
def aggregate (nf ef : List Str) (st : AggState) (records : List (Str × Str)) : AggState :=
  records.foldl (fun st p => process_record nf ef st p.1 p.2) st

/-! ### `print_author_graph` from src/main.rs

The printed output is modelled as the list of emitted lines.  The
`colored` crate's `.green()` / `.yellow()` render as ANSI SGR wrapping. -/

def GREEN : Str := "\x1b[32m".toList

def YELLOW : Str := "\x1b[33m".toList

def greenText (s : Str) : Str := GREEN ++ s ++ RESET

def yellowText (s : Str) : Str := YELLOW ++ s ++ RESET

/-- The line printed for one `(author_display, count)` entry:
`"({count_str}) {colored_author}"` with the count in green and the email
part (between the first `<` and the first `>`, when both exist) in
yellow.  The source would panic if `>` occurred before `<`; list
`take`/`drop` clamp instead, and no program input reaches that case. -/
def entry_line (p : Str × Nat) : Str :=
  let count_str := greenText (natStr p.2)
  let author_display := p.1
  let colored_author :=
    match author_display.findIdx? (fun c => c = '<') with
    | some start =>
      match author_display.findIdx? (fun c => c = '>') with
      | some stop =>
        trimStr (author_display.take start) ++ " <".toList
          ++ yellowText ((author_display.drop (start + 1)).take (stop - (start + 1)))
          ++ ">".toList
      | none => yellowText author_display
    | none => yellowText author_display
  "(".toList ++ count_str ++ ") ".toList ++ colored_author

/-- `print_author_graph`: nothing for an empty list, otherwise the header
line followed by one line per entry, in order. -/
def print_author_graph (author_counts : List (Str × Nat)) : List Str :=
  if author_counts.isEmpty then []
  else "Commits by author:".toList :: author_counts.map entry_line

/-! ## Helper lemmas -/

theorem findSubstrIdx_cons_pos {needle : Str} {c : Char} {rest : Str}
    (h : needle.isPrefixOf (c :: rest) = true) :
    findSubstrIdx needle (c :: rest) = some 0 := by
  simp [findSubstrIdx, h]

theorem findSubstrIdx_cons_neg {needle : Str} {c : Char} {rest : Str}
    (h : ¬ needle.isPrefixOf (c :: rest) = true) :
    findSubstrIdx needle (c :: rest) = (findSubstrIdx needle rest).map (fun i => i + 1) := by
  simp [findSubstrIdx, h]

/-- `findSubstrIdx` returns exactly the position of the first occurrence:
the needle occurs at the returned index and at no earlier index. -/
theorem findSubstrIdx_some_iff (needle : Str) (s : Str) :
    ∀ i : Nat, findSubstrIdx needle s = some i ↔
      (needle <+: s.drop i ∧ ∀ j, j < i → ¬ needle <+: s.drop j) := by
  induction s with
  | nil =>
    intro i
    by_cases hn : needle = []
    · subst hn
      simp only [findSubstrIdx, List.isEmpty_nil, if_true, List.drop_nil, List.nil_prefix,
        not_true_eq_false, and_true, true_and]
      constructor
      · intro h
        injection h with h
        omega
      · intro h
        have : i = 0 := by
          by_contra hne
          exact h 0 (Nat.pos_of_ne_zero hne)
        simp [this]
    · simp [findSubstrIdx, List.isEmpty_iff, hn, List.prefix_nil]
  | cons c rest ih =>
    intro i
    by_cases h : needle.isPrefixOf (c :: rest)
    · have hp : needle <+: c :: rest := List.isPrefixOf_iff_prefix.mp h
      rw [findSubstrIdx_cons_pos h]
      constructor
      · intro heq
        injection heq with heq
        subst heq
        exact ⟨hp, fun j hj => absurd hj (Nat.not_lt_zero j)⟩
      · rintro ⟨-, hmin⟩
        have : i = 0 := by
          by_contra hne
          exact hmin 0 (Nat.pos_of_ne_zero hne) hp
        simp [this]
    · have hnp : ¬ needle <+: c :: rest := fun hc => h (List.isPrefixOf_iff_prefix.mpr hc)
      rw [findSubstrIdx_cons_neg h]
      cases i with
      | zero =>
        simp only [List.drop_zero]
        constructor
        · intro heq
          obtain ⟨i', -, hc⟩ := Option.map_eq_some'.mp heq
          omega
        · rintro ⟨hc, -⟩
          exact absurd hc hnp
      | succ k =>
        rw [show (c :: rest).drop (k + 1) = rest.drop k from rfl]
        constructor
        · intro heq
          obtain ⟨i', hi', hc⟩ := Option.map_eq_some'.mp heq
          have hk : i' = k := by omega
          rw [hk] at hi'
          obtain ⟨h1, h2⟩ := (ih k).mp hi'
          refine ⟨h1, fun j hj => ?_⟩
          cases j with
          | zero => simpa using hnp
          | succ j' =>
            rw [show (c :: rest).drop (j' + 1) = rest.drop j' from rfl]
            exact h2 j' (by omega)
        · rintro ⟨h1, h2⟩
          have hrest : findSubstrIdx needle rest = some k := by
            refine (ih k).mpr ⟨h1, fun j hj => ?_⟩
            have := h2 (j + 1) (by omega)
            rwa [show (c :: rest).drop (j + 1) = rest.drop j from rfl] at this
          simp [hrest]

/-- When `findSubstrIdx` finds nothing, the needle occurs nowhere. -/
theorem findSubstrIdx_none_iff (needle : Str) (s : Str) :
    findSubstrIdx needle s = none ↔ ∀ j, ¬ needle <+: s.drop j := by
  induction s with
  | nil =>
    by_cases hn : needle = []
    · subst hn
      simp [findSubstrIdx]
    · simp [findSubstrIdx, List.isEmpty_iff, hn, List.prefix_nil]
  | cons c rest ih =>
    by_cases h : needle.isPrefixOf (c :: rest)
    · have hp : needle <+: c :: rest := List.isPrefixOf_iff_prefix.mp h
      rw [findSubstrIdx_cons_pos h]
      constructor
      · intro hc
        cases hc
      · intro hall
        exact absurd hp (by simpa using hall 0)
    · have hnp : ¬ needle <+: c :: rest := fun hc => h (List.isPrefixOf_iff_prefix.mpr hc)
      rw [findSubstrIdx_cons_neg h, Option.map_eq_none']
      rw [ih]
      constructor
      · intro hall j
        cases j with
        | zero => simpa using hnp
        | succ j' =>
          rw [show (c :: rest).drop (j' + 1) = rest.drop j' from rfl]
          exact hall j'
      · intro hall j
        have := hall (j + 1)
        rwa [show (c :: rest).drop (j + 1) = rest.drop j from rfl] at this

/-- `containsSubstr` is substring occurrence. -/
theorem containsSubstr_iff (hay needle : Str) :
    containsSubstr hay needle = true ↔ ∃ pre post, hay = pre ++ needle ++ post := by
  unfold containsSubstr
  rw [Option.isSome_iff_exists]
  constructor
  · rintro ⟨i, hi⟩
    obtain ⟨hp, -⟩ := (findSubstrIdx_some_iff needle hay i).mp hi
    obtain ⟨t, ht⟩ := hp
    refine ⟨hay.take i, t, ?_⟩
    conv_lhs => rw [← List.take_append_drop i hay]
    rw [← ht, List.append_assoc]
  · rintro ⟨pre, post, rfl⟩
    cases h : findSubstrIdx needle (pre ++ needle ++ post) with
    | some i => exact ⟨i, rfl⟩
    | none =>
      exfalso
      have hnone := (findSubstrIdx_none_iff needle _).mp h pre.length
      apply hnone
      rw [List.append_assoc, List.drop_left]
      exact ⟨post, rfl⟩

/-- The display half of the `prune` loop: one display event per input
line, in input order. -/
theorem prune_scan_fst (branches : List Str) (current : Str) :
    ∀ input : List Str,
      (prune_scan branches current input).1
        = input.map (fun l => PruneEvent.display (render_line l)) := by
  intro input
  induction input with
  | nil => rfl
  | cons line rest ih =>
    unfold prune_scan render_line
    cases hc : is_pruned_branch line <;> simp [hc, ih, render_line]

/-! ## Claim C1 -/

/-- Claim C1: for every line stream, known-local-branch snapshot and
current branch name, `prune` only ever issues a local delete for a branch
that is in the snapshot and is not the current branch — so it never
deletes the current branch (even when a line reports it pruned) and never
deletes a branch absent from the snapshot. -/
theorem prune_never_deletes_current_or_unknown :
    ∀ (input branches : List Str) (current b : Str),
      b ∈ prune_deletes branches current input → b ∈ branches ∧ b ≠ current := by
  intro input
  induction input with
  | nil =>
    intro branches current b h
    simp [prune_deletes, prune_scan] at h
  | cons line rest ih =>
    intro branches current b h
    unfold prune_deletes prune_scan at h
    cases hc : is_pruned_branch line with
    | none =>
      rw [hc] at h
      exact ih branches current b h
    | some br =>
      rw [hc] at h
      simp only at h
      by_cases hg : br ∈ branches ∧ br ≠ current
      · rw [if_pos hg] at h
        rcases List.mem_cons.mp h with rfl | h2
        · exact hg
        · exact ih branches current b h2
      · rw [if_neg hg] at h
        exact ih branches current b h

/-- Witness for C1 at a concrete stream: the single delete issued is for
`feat-a`, which is in the snapshot and differs from the current branch. -/
theorem prune_never_deletes_current_or_unknown_witness :
    ("feat-a".toList) ∈ [("feat-a".toList), ("main".toList)]
      ∧ ("feat-a".toList) ≠ ("main".toList) :=
  prune_never_deletes_current_or_unknown
    [(" - [deleted]  (none) -> origin/feat-a".toList)]
    [("feat-a".toList), ("main".toList)] ("main".toList) ("feat-a".toList) (by decide)

/-! ## Claim C3 -/

/-- Claim C3: classification returns `some b` exactly when the line
starts with the literal marker `" - [deleted]"` and contains `"origin/"`,
with `b` everything after the first occurrence of `"origin/"` to the end
of the line; otherwise it returns `none`.  The literal fixture line
classifies as `some "command-push"`. -/
theorem is_pruned_branch_classification :
    (∀ s b : Str, is_pruned_branch s = some b ↔
      (DELETED <+: s ∧ ∃ i, (ORIGIN <+: s.drop i ∧ ∀ j, j < i → ¬ ORIGIN <+: s.drop j)
        ∧ b = s.drop (i + ORIGIN.length) ∧ s = s.take i ++ ORIGIN ++ b))
    ∧ is_pruned_branch (" - [deleted]         (none)     -> origin/command-push".toList)
        = some ("command-push".toList) := by
  constructor
  · intro s b
    unfold is_pruned_branch
    by_cases hd : DELETED.isPrefixOf s
    · have hd' : DELETED <+: s := List.isPrefixOf_iff_prefix.mp hd
      rw [if_pos hd]
      constructor
      · intro h
        obtain ⟨i, hi, hb⟩ := Option.map_eq_some'.mp h
        obtain ⟨h1, h2⟩ := (findSubstrIdx_some_iff ORIGIN s i).mp hi
        refine ⟨hd', i, ⟨h1, h2⟩, hb.symm, ?_⟩
        obtain ⟨t, ht⟩ := h1
        have hdd := congrArg (List.drop ORIGIN.length) ht
        rw [List.drop_left, List.drop_drop] at hdd
        have hbt : b = t := by rw [← hb, hdd]
        rw [hbt, List.append_assoc, ht]
        exact (List.take_append_drop i s).symm
      · rintro ⟨-, i, ⟨h1, h2⟩, hb, -⟩
        have hfind : findSubstrIdx ORIGIN s = some i :=
          (findSubstrIdx_some_iff ORIGIN s i).mpr ⟨h1, h2⟩
        rw [hfind]
        simpa using hb.symm
    · have hd' : ¬ DELETED <+: s := fun hc => hd (List.isPrefixOf_iff_prefix.mpr hc)
      rw [if_neg hd]
      constructor
      · intro h
        cases h
      · rintro ⟨hc, -⟩
        exact absurd hc hd'
  · decide

/-! ## Claim C6 -/

/-- Claim C6 counterexample: with two pruned known branches, the trace is
both displays first and both deletes after the entire stream — the delete
for `feat-a` (index 2) comes after the display of the second line
(index 1), not immediately after its own line's display, refuting the
claimed per-line interleaving. -/
theorem prune_deletes_batched_counterexample :
    prune_trace [("feat-a".toList), ("feat-b".toList), ("main".toList)] ("main".toList)
        [(" - [deleted]  (none) -> origin/feat-a".toList),
         (" - [deleted]  (none) -> origin/feat-b".toList)]
      = [PruneEvent.display
           (" - [deleted]  (none) -> ".toList ++ RED ++ "origin/feat-a".toList ++ RESET),
         PruneEvent.display
           (" - [deleted]  (none) -> ".toList ++ RED ++ "origin/feat-b".toList ++ RESET),
         PruneEvent.deleteBranch ("feat-a".toList),
         PruneEvent.deleteBranch ("feat-b".toList)] := by
  decide

/-- Claim C6 as amended: the displayed output matches input line order
exactly, but the delete attempts are batched after the whole line stream
has been consumed (in the order the pruned lines appeared), rather than
interleaved per line. -/
theorem prune_display_order_deletes_batched :
    ∀ (branches : List Str) (current : Str) (input : List Str),
      prune_trace branches current input
        = input.map (fun l => PruneEvent.display (render_line l))
          ++ (if prune_deletes branches current input = [] then [PruneEvent.noPruned]
              else (prune_deletes branches current input).map PruneEvent.deleteBranch) := by
  intro branches current input
  simp only [prune_trace, prune_deletes]
  rw [prune_scan_fst]
  by_cases hc : (prune_scan branches current input).2 = [] <;> simp [hc]

/-! ## Claim C7 -/

/-- Claim C7 counterexample: a stream whose only pruned line reports the
current branch ends with the same `noPruned` report ("No pruned branches
found") as the empty stream, and produces no delete and no skipped
record — the all-skipped outcome is not reported distinctly from the
zero-pruned outcome. -/
theorem prune_skipped_report_counterexample :
    prune_trace [("main".toList)] ("main".toList) [] = [PruneEvent.noPruned]
      ∧ prune_trace [("main".toList)] ("main".toList)
          [(" - [deleted]  (none) -> origin/main".toList)]
        = [PruneEvent.display
             (" - [deleted]  (none) -> ".toList ++ RED ++ "origin/main".toList ++ RESET),
           PruneEvent.noPruned]
      ∧ prune_deletes [("main".toList)] ("main".toList)
          [(" - [deleted]  (none) -> origin/main".toList)] = [] := by
  refine ⟨by decide, by decide, by decide⟩

/-- Claim C7 as amended: whenever no branch survives the guard — whether
the stream yielded zero pruned branches or every pruned branch was
skipped (current branch or absent from the snapshot) — `prune` emits the
same final "No pruned branches found" report and no delete; no skipped
record is produced. -/
theorem prune_empty_deletes_reports_no_pruned :
    ∀ (branches : List Str) (current : Str) (input : List Str),
      prune_deletes branches current input = [] →
        prune_trace branches current input
          = input.map (fun l => PruneEvent.display (render_line l))
            ++ [PruneEvent.noPruned] := by
  intro branches current input h
  simp only [prune_trace]
  rw [prune_scan_fst]
  have h2 : (prune_scan branches current input).2 = [] := h
  rw [h2]
  simp

/-- Witness for the amended C7 at a concrete all-skipped stream. -/
theorem prune_empty_deletes_reports_no_pruned_witness :
    prune_trace [("main".toList)] ("main".toList)
        [("From github.com:kyle-rader/loki-cli".toList)]
      = [PruneEvent.display (render_line ("From github.com:kyle-rader/loki-cli".toList)),
         PruneEvent.noPruned] :=
  prune_empty_deletes_reports_no_pruned [("main".toList)] ("main".toList)
    [("From github.com:kyle-rader/loki-cli".toList)] (by decide)

/-! ## Claim C2 -/

/-- Claim C2 counterexample: with exit code 1 and all lines produced, the
buffered mode still returns `ok` with the stderr-then-stdout lines — the
nonzero exit status is not surfaced as an error in either field of the
result. -/
theorem git_command_iter_ok_on_nonzero_exit_counterexample :
    (ProcOutput.mk 1 ("some output\n".toList) ("fatal: boom\n".toList)).exitCode = 1
      ∧ git_command_iter (ProcOutput.mk 1 ("some output\n".toList) ("fatal: boom\n".toList))
          = Except.ok [("fatal: boom".toList), ("some output".toList)] := by
  refine ⟨rfl, ?_⟩
  show Except.ok (rustLines _ ++ rustLines _) = _
  rw [show rustLines ("fatal: boom\n".toList) = [("fatal: boom".toList)] from by decide,
    show rustLines ("some output\n".toList) = [("some output".toList)] from by decide]
  rfl

/-- Claim C2 as amended: neither line-collection mode inspects the exit
status.  The buffered mode always succeeds with the combined
stderr-then-stdout lines, and the set of line sequences the streaming
mode can deliver is unchanged under any exit code; no error carrying the
exit code is ever produced (the only `repo_stats` path checks the status
inline, outside these two functions). -/
theorem git_modes_ignore_exit_status :
    ∀ (out : ProcOutput) (code : Int),
      git_command_iter out
          = Except.ok (rustLines out.stderrText ++ rustLines out.stdoutText)
        ∧ git_command_iter { out with exitCode := code } = git_command_iter out
        ∧ ∀ delivered, (git_command_stream { out with exitCode := code } delivered
            ↔ git_command_stream out delivered) :=
  fun _ _ => ⟨rfl, rfl, fun _ => Iff.rfl⟩

/-! ## Claim C4: helper lemmas for `canonicalize_author` -/

/-- A bound email short-circuits `canonicalize_author`. -/
theorem canon_hit (email name k : Str) (st : List (Str × Str) × List (Str × Str))
    (h : alookup email st.1 = some k) :
    (canonicalize_author email name st).1 = k := by
  simp [canonicalize_author, h]

/-- After any call, the processed email is bound to the returned key. -/
theorem canon_binds (email name : Str) (st : List (Str × Str) × List (Str × Str)) :
    alookup email (canonicalize_author email name st).2.1
      = some (canonicalize_author email name st).1 := by
  unfold canonicalize_author
  cases he : alookup email st.1 with
  | some ex => simpa using he
  | none =>
    by_cases hn : name ≠ []
    · cases hnm : alookup name st.2 with
      | some ex => simp [hn, hnm, alookup]
      | none => simp [hn, hnm, insertIfAbsent, he, alookup]
    · simp [hn, insertIfAbsent, he, alookup]

/-- Existing email-alias bindings are never overwritten. -/
theorem canon_alias_mono (a k email name : Str)
    (st : List (Str × Str) × List (Str × Str)) (h : alookup a st.1 = some k) :
    alookup a (canonicalize_author email name st).2.1 = some k := by
  unfold canonicalize_author
  cases he : alookup email st.1 with
  | some ex => simpa using h
  | none =>
    have hne : email ≠ a := by
      rintro rfl
      rw [he] at h
      cases h
    by_cases hn : name ≠ []
    · cases hnm : alookup name st.2 with
      | some ex => simp [hn, hnm, alookup, hne, h]
      | none => simp [hn, hnm, insertIfAbsent, he, alookup, hne, h]
    · simp [hn, insertIfAbsent, he, alookup, hne, h]

/-- Existing name-to-email bindings are never overwritten. -/
theorem canon_name_mono (a v email name : Str)
    (st : List (Str × Str) × List (Str × Str)) (h : alookup a st.2 = some v) :
    alookup a (canonicalize_author email name st).2.2 = some v := by
  unfold canonicalize_author
  cases he : alookup email st.1 with
  | some ex => simpa using h
  | none =>
    by_cases hn : name ≠ []
    · cases hnm : alookup name st.2 with
      | some ex => simpa [hn, hnm] using h
      | none =>
        have hne : name ≠ a := by
          rintro rfl
          rw [hnm] at h
          cases h
        simp [hn, hnm, alookup, hne, h]
    · simpa [hn] using h

/-- A fresh email under an already-bound non-empty name resolves to the
email that name was first bound to. -/
theorem canon_name_resolve (nm e1 e2 : Str)
    (st : List (Str × Str) × List (Str × Str)) (hnm : nm ≠ [])
    (hb : alookup nm st.2 = some e1) (ha : alookup e2 st.1 = none) :
    (canonicalize_author e2 nm st).1 = e1 := by
  simp [canonicalize_author, ha, hnm, hb]

/-- Email-alias bindings persist through any further identity sequence. -/
theorem run_alias_mono (a k : Str) :
    ∀ (ids : List (Str × Str)) (st : List (Str × Str) × List (Str × Str)),
      alookup a st.1 = some k → alookup a (runCanon ids st).1 = some k := by
  intro ids
  induction ids with
  | nil => intro st h; exact h
  | cons p rest ih =>
    intro st h
    exact ih _ (canon_alias_mono a k p.1 p.2 st h)

/-- Name-to-email bindings persist through any further identity sequence. -/
theorem run_name_mono (a v : Str) :
    ∀ (ids : List (Str × Str)) (st : List (Str × Str) × List (Str × Str)),
      alookup a st.2 = some v → alookup a (runCanon ids st).2 = some v := by
  intro ids
  induction ids with
  | nil => intro st h; exact h
  | cons p rest ih =>
    intro st h
    exact ih _ (canon_name_mono a v p.1 p.2 st h)

/-! ## Claim C4 -/

/-- Claim C4 counterexample: process ("a@x.com","alice") then
("b@x.com","bob") through one shared pair of mappings.  The name "alice"
is bound to "a@x.com", yet the subsequent different email "b@x.com" seen
under the name "alice" resolves to "b@x.com", not to "a@x.com" — the
email-alias lookup takes precedence over the name-keyed merge, refuting
the claim's second conjunct. -/
theorem canonicalize_author_name_merge_counterexample :
    alookup ("alice".toList)
        (runCanon [(("a@x.com".toList), ("alice".toList)),
                   (("b@x.com".toList), ("bob".toList))] ([], [])).2
      = some ("a@x.com".toList)
    ∧ (canonicalize_author ("b@x.com".toList) ("alice".toList)
        (runCanon [(("a@x.com".toList), ("alice".toList)),
                   (("b@x.com".toList), ("bob".toList))] ([], []))).1
      = ("b@x.com".toList)
    ∧ ("b@x.com".toList) ≠ ("a@x.com".toList) := by
  refine ⟨by decide, by decide, by decide⟩

/-- Claim C4 as amended: (1) once an email has been bound to a canonical
key, every future occurrence of that exact email resolves to the same
key; (2) once a name has been bound to an email, every future different
email seen under that same name — provided that email is not itself
already bound in the alias map — resolves to the email the name was
first bound to (which is its own canonical key). -/
theorem canonicalize_author_sticky :
    (∀ (st : List (Str × Str) × List (Str × Str)) (e n : Str)
        (ids : List (Str × Str)) (n2 : Str),
      (canonicalize_author e n2 (runCanon ids (canonicalize_author e n st).2)).1
        = (canonicalize_author e n st).1)
    ∧ (∀ (st : List (Str × Str) × List (Str × Str)) (nm e1 : Str)
        (ids : List (Str × Str)) (e2 : Str),
      nm ≠ [] → alookup nm st.2 = some e1 →
        alookup e2 (runCanon ids st).1 = none →
        (canonicalize_author e2 nm (runCanon ids st)).1 = e1) := by
  constructor
  · intro st e n ids n2
    exact canon_hit e n2 _ _ (run_alias_mono e _ ids _ (canon_binds e n st))
  · intro st nm e1 ids e2 hnm hb ha
    exact canon_name_resolve nm e1 e2 _ hnm (run_name_mono nm e1 ids st hb) ha

/-- Witness for the amended C4, instantiating the name-keyed conjunct at
a concrete state and input. -/
theorem canonicalize_author_sticky_witness :
    (canonicalize_author ("c@x.com".toList) ("alice".toList)
        (runCanon [(("d@x.com".toList), ("dora".toList))]
          ([], [(("alice".toList), ("a@x.com".toList))]))).1
      = ("a@x.com".toList) :=
  canonicalize_author_sticky.2 ([], [(("alice".toList), ("a@x.com".toList))])
    ("alice".toList) ("a@x.com".toList) [(("d@x.com".toList), ("dora".toList))]
    ("c@x.com".toList) (by decide) (by decide) (by decide)

/-! ## Claim C9 -/

/-- Claim C9 counterexample: with the email filter "alias" and records
("bob","alias@x.com") then ("bob","bob@x.com"), the second record fails
the filter on its own email (so by the claim it would never be tallied),
yet the code canonicalizes it first — to "alias@x.com" — filters on that
canonical email, and tallies it: the total for "alias@x.com" is 2. -/
theorem repo_stats_filter_order_counterexample :
    matches_author_filters_lowered ("bob".toList) ("bob@x.com".toList)
        [] [("alias".toList)] = false
      ∧ alookup ("alias@x.com".toList)
          (aggregate [] [("alias".toList)] (AggState.mk [] [] [] [])
            [(("bob".toList), ("alias@x.com".toList)),
             (("bob".toList), ("bob@x.com".toList))]).totals
        = some 2 := by
  refine ⟨by decide, by decide⟩

/-- Claim C9 as amended: each record is first canonicalized (the alias
maps are updated even for records that are then filtered out), then
filtered by the author filters applied to its raw name and its canonical
email — passing only if it matches at least one filter in each non-empty
set, matching being case-insensitive substring, ORed within a set and
ANDed across the two sets — and only records that pass are tallied
(under the canonical email). -/
theorem repo_stats_canonicalize_then_filter :
    (∀ (name email : Str) (nfl efl : List Str),
      matches_author_filters_lowered name email nfl efl = true ↔
        ((nfl = [] ∨ (name ≠ [] ∧ ∃ f ∈ nfl, ∃ pre post, toLowerStr name = pre ++ f ++ post))
          ∧ (efl = [] ∨ (email ≠ []
              ∧ ∃ f ∈ efl, ∃ pre post, toLowerStr email = pre ++ f ++ post))))
    ∧ (∀ (nfl efl : List Str) (st : AggState) (np ep : Str),
      (process_record nfl efl st np ep).totals
          = (if matches_author_filters_lowered (trimStr np) (canonStep st np ep).1 nfl efl
             then bump (canonStep st np ep).1 st.totals else st.totals)
        ∧ (process_record nfl efl st np ep).email_aliases = (canonStep st np ep).2.1
        ∧ (process_record nfl efl st np ep).name_to_email = (canonStep st np ep).2.2) := by
  constructor
  · intro name email nfl efl
    unfold matches_author_filters_lowered
    simp only [Bool.and_eq_true, Bool.or_eq_true, Bool.not_eq_true', List.any_eq_true,
      List.isEmpty_iff, List.isEmpty_eq_false, ne_eq, containsSubstr_iff]
  · intro nfl efl st np ep
    unfold process_record
    by_cases h : matches_author_filters_lowered (trimStr np) (canonStep st np ep).1 nfl efl
    · by_cases hn : trimStr np = []
      · rw [hn] at h
        simp [h, hn]
      · simp [h, hn]
    · simp [h]

/-! ## Claim C10 -/

/-- Claim C10: the two author-filter implementations agree —
`matches_author_filters` on the raw options equals
`matches_author_filters_lowered` on the same name and email with the
pre-lowercased filter lists. -/
theorem matches_author_filters_agree :
    ∀ (name email : Str) (o : RepoStatsOptions),
      matches_author_filters name email o
        = matches_author_filters_lowered name email
            (o.names.map toLowerStr) (o.emails.map toLowerStr) := by
  intro name email o
  unfold matches_author_filters matches_author_filters_lowered
  rcases o with ⟨d, w, m, f, t, tp, names, emails⟩
  rcases names with _ | ⟨n, ns⟩ <;> rcases emails with _ | ⟨e, es⟩ <;>
    simp [List.any_map, Function.comp_def]

/-! ## Claim C5 -/

/-- Claim C5 counterexample: the rendered line for the entry ("x", 1) is
character-for-character identical whether that entry holds the maximum
count (sole entry) or one hundredth of the maximum, and each line
consists of nothing but the parenthesized green count and the yellow
label — there is no bar, no configured width, and no dependence on
`max_count`, refuting proportional bars, the full-width maximum bar, and
the at-least-one-bar-character guarantee. -/
theorem print_author_graph_no_bars_counterexample :
    print_author_graph [(['x'], 1)]
        = [("Commits by author:".toList),
           ("(".toList ++ GREEN ++ ['1'] ++ RESET ++ ") ".toList ++ YELLOW ++ ['x'] ++ RESET)]
      ∧ print_author_graph [(['x'], 1), (['y'], 100)]
        = [("Commits by author:".toList),
           ("(".toList ++ GREEN ++ ['1'] ++ RESET ++ ") ".toList ++ YELLOW ++ ['x'] ++ RESET),
           ("(".toList ++ GREEN ++ "100".toList ++ RESET ++ ") ".toList
             ++ YELLOW ++ ['y'] ++ RESET)] := by
  refine ⟨by decide, by decide⟩

/-- Claim C5 as amended: for every nonempty sequence the renderer emits
the header at index 0 and, for the entry at input position `i`, the line
`entry_line` at output index `i + 1`; that line is a function of the
entry alone — "(<count in green>) <colored label>" — so it does not
depend on the other entries' counts, and no bar is rendered. -/
theorem print_author_graph_count_only :
    ∀ (p : Str × Nat) (pre suf : List (Str × Nat)),
      (print_author_graph (pre ++ p :: suf))[0]? = some ("Commits by author:".toList)
        ∧ (print_author_graph (pre ++ p :: suf))[pre.length + 1]? = some (entry_line p) := by
  intro p pre suf
  have hne : (pre ++ p :: suf).isEmpty = false := by simp
  constructor
  · simp [print_author_graph, hne]
  · simp only [print_author_graph, hne, Bool.false_eq_true, if_false]
    rw [List.getElem?_cons_succ, List.map_append, List.map_cons,
      List.getElem?_append_right (by simp)]
    simp

/-! ## Claim C8 -/

/-- Claim C8 counterexample: `resolve_time_range` called with both
`--days 1` and `--weeks 1` supplied does not fail — it takes the `days`
branch of the if-else chain and succeeds (mutual exclusivity is enforced
by the argument parser's `conflicts_with_all`, not by the resolver). -/
theorem resolve_time_range_multiple_specifiers_counterexample :
    (RepoStatsOptions.mk (some 1) (some 1) none none none none [] []).days = some 1
      ∧ (RepoStatsOptions.mk (some 1) (some 1) none none none none [] []).weeks = some 1
      ∧ (resolve_time_range 1000000
          (RepoStatsOptions.mk (some 1) (some 1) none none none none [] [])).isOk = true := by
  refine ⟨rfl, rfl, by decide⟩

/-- Claim C8 as amended: multiple window specifiers are rejected by the
CLI parser, not the resolver, which instead prioritizes
`from` > `days` > `weeks` > `months`; within the branch actually taken
the resolver fails with a validation error on a zero count, and fails
when the resolved start is strictly after the resolved end; in each
failure no time range is produced. -/
theorem resolve_time_range_validation :
    ∀ (now : Int) (o : RepoStatsOptions),
      (o.fromDate = none → o.days = some 0 →
        resolve_time_range now o = Except.error daysErrMsg)
      ∧ (o.fromDate = none → o.days = none → o.weeks = some 0 →
        resolve_time_range now o = Except.error weeksErrMsg)
      ∧ (o.fromDate = none → o.days = none → o.weeks = none → o.months = some 0 →
        resolve_time_range now o = Except.error monthsErrMsg)
      ∧ (∀ f t, o.fromDate = some f → o.toDate = some t →
          dateStartTs f > dateEndTs t →
          resolve_time_range now o = Except.error startAfterEndMsg) := by
  intro now o
  refine ⟨?_, ?_, ?_, ?_⟩
  · intro hf hd
    unfold resolve_time_range
    rcases ht : o.toDate with _ | td <;> simp [hf, hd, ht]
  · intro hf hd hw
    unfold resolve_time_range
    rcases ht : o.toDate with _ | td <;> simp [hf, hd, hw, ht]
  · intro hf hd hw hm
    unfold resolve_time_range
    rcases ht : o.toDate with _ | td <;> simp [hf, hd, hw, hm, ht]
  · intro f t hf ht hgt
    unfold resolve_time_range
    simp [hf, ht, hgt]

/-- Witness for the amended C8: a concrete `--from 2024-05-01`
`--to 2024-04-01` pair is rejected with the start-after-end error. -/
theorem resolve_time_range_validation_witness :
    resolve_time_range 0
        (RepoStatsOptions.mk none none none (some (NDate.mk 2024 5 1))
          (some (NDate.mk 2024 4 1)) none [] [])
      = Except.error startAfterEndMsg :=
  (resolve_time_range_validation 0
      (RepoStatsOptions.mk none none none (some (NDate.mk 2024 5 1))
        (some (NDate.mk 2024 4 1)) none [] [])).2.2.2
    (NDate.mk 2024 5 1) (NDate.mk 2024 4 1) rfl rfl (by decide)
